import Mathlib

/-!
Verification development for the document-insight service's RAG + QA core.

The definitions below are a shallow embedding of the Python sources:
  app/services/rag.py   (RAGEngine: chunking, index build, retrieval, assembly)
  app/services/qa.py    (QAEngine: extractive answering and orchestration)
  app/services/cache.py (CacheManager: in-memory cache branch)

Python strings are modelled through their character lists (Python indexing
and slicing are character-based); Python dicts keyed by strings are modelled
as association lists preserving insertion order (Python dicts are ordered);
model scores, distances and embedding coordinates are rationals; Python
exceptions are modelled with Except / Option and every try/except block of
the source is reproduced as the corresponding total function. The external
collaborators — the sentence-transformer encoder, the faiss IndexFlatL2
search, the extractive QA pipeline and the md5 hex digest — are modelled as
function parameters, per the spec's external-interface contracts.
-/

namespace DocQA

/-- Python slicing text[a:b] on character positions. -/
def pySlice (s : String) (a b : Nat) : String :=
  String.mk ((s.data.drop a).take (b - a))

/-- Python slicing text[:n]. -/
def pyTake (s : String) (n : Nat) : String :=
  String.mk (s.data.take n)

/-- Python str.strip on a character list. -/
def stripChars (l : List Char) : List Char :=
  ((l.dropWhile Char.isWhitespace).reverse.dropWhile Char.isWhitespace).reverse

/-- Python str.strip. -/
def stripS (s : String) : String :=
  String.mk (stripChars s.data)

/-- Python "\n\n".join(l), the blank-line separator used throughout. -/
def joinSep (l : List String) : String :=
  String.intercalate "\n\n" l

/-- Python range(0, stop, step) for a positive step. -/
def pyRange (stop step : Nat) : List Nat :=
  (List.range ((stop + step - 1) / step)).map (· * step)

/-- Python: context[:max] if len(context) > max else context
    (rag.py augment_context truncation, qa.py per-document truncation). -/
def truncCtx (max_context_length : Nat) (s : String) : String :=
  if max_context_length < s.length then pyTake s max_context_length else s

/-- Chunk positional metadata from rag.py create_session_index:
    doc_id, start = i, end = min(i + chunk_size, len(text)).
    The Python key "end" is spelled stop here (end is a Lean keyword). -/
structure ChunkMeta where
  doc_id : String
  start : Nat
  stop : Nat
deriving DecidableEq

/-- The chunking loop of rag.py create_session_index (lines 57-67), with
    chunk_size, chunk_overlap and the minimum trimmed length as parameters
    (the source fixes them to 500, 50, 50):
    for i in range(0, len(text), chunk_size - chunk_overlap):
        chunk = text[i:i + chunk_size]
        if len(chunk.strip()) > 50: emit (chunk, metadata). -/
def chunkDoc (chunk_size chunk_overlap min_chunk_length : Nat)
    (doc_id : String) (text : String) : List (String × ChunkMeta) :=
  (pyRange text.length (chunk_size - chunk_overlap)).filterMap (fun i =>
    let chunk := pySlice text i (i + chunk_size)
    if min_chunk_length < (stripChars chunk.data).length then
      some (chunk, ⟨doc_id, i, min (i + chunk_size) text.length⟩)
    else none)

/-- Character ranges of the chunks actually emitted (metadata start/end). -/
def emittedRanges (chunk_size chunk_overlap min_chunk_length : Nat)
    (doc_id : String) (text : String) : List (Nat × Nat) :=
  (chunkDoc chunk_size chunk_overlap min_chunk_length doc_id text).map
    (fun p => (p.2.start, p.2.stop))

/-- Character ranges of all windows the chunking loop visits, before the
    minimum-length filter. -/
def windowRanges (chunk_size chunk_overlap len : Nat) : List (Nat × Nat) :=
  (pyRange len (chunk_size - chunk_overlap)).map
    (fun i => (i, min (i + chunk_size) len))

/-- Position c is inside one of the given half-open ranges. -/
def covers (rs : List (Nat × Nat)) (c : Nat) : Prop :=
  ∃ r ∈ rs, r.1 ≤ c ∧ c < r.2

/-- Embedding vector (a row of the encoder's output matrix). -/
abbrev Vec := List ℚ

/-- The embedding collaborator: model.encode(list) → matrix, which may
    raise (modelled as Except). -/
abbrev Encode := List String → Except String (List Vec)

/-- In-memory per-session index entry of rag.py:
    {"index", "embeddings", "texts", "metadata", "documents"}; the FAISS
    IndexFlatL2 object is fully determined by the stored embedding matrix,
    so it is not duplicated here (ntotal = embeddings.length). -/
structure IndexData where
  embeddings : List Vec
  texts : List String
  metadata : List ChunkMeta
  documents : List (String × String)

/-- The nearest-neighbor search collaborator, faiss.IndexFlatL2.search
    (an external library call, like the encoder): given the stored
    embedding matrix, a query vector and a requested neighbor count k, it
    returns (distance, row index) pairs, best (smallest L2 distance)
    first. For an exact index it returns one pair per requested neighbor
    when k does not exceed the number of stored rows, padding with
    negative row indices otherwise. -/
abbrev Search := List Vec → Vec → Nat → List (ℚ × Int)

/-- RAGEngine state: the encoder and search collaborators and the
    indices dict. -/
structure RAGEngine where
  encode : Encode
  search : Search
  indices : List (String × IndexData)

/-- Python dict lookup d[k] as an Option (KeyError = none). -/
def lookupAssoc {α : Type} : List (String × α) → String → Option α
  | [], _ => none
  | (k', v) :: rest, k => if k' = k then some v else lookupAssoc rest k

/-- Python dict assignment d[k] = v (replace in place, else append). -/
def insertAssoc {α : Type} : List (String × α) → String → α → List (String × α)
  | [], k, v => [(k, v)]
  | (k', v') :: rest, k, v =>
      if k' = k then (k, v) :: rest else (k', v') :: insertAssoc rest k v

/-- Python del d[k] (no-op when absent, matching guarded deletes). -/
def eraseAssoc {α : Type} : List (String × α) → String → List (String × α)
  | [], _ => []
  | (k', v') :: rest, k =>
      if k' = k then rest else (k', v') :: eraseAssoc rest k

/-- All chunk/metadata pairs the build collects over the documents dict,
    with the source's constants 500 / 50 / 50. -/
def chunksAll (documents : List (String × String)) : List (String × ChunkMeta) :=
  documents.flatMap (fun p => chunkDoc 500 50 50 p.1 p.2)

/-- rag.py RAGEngine.create_session_index (lines 39-105). Returns the
    success flag and the updated engine. The whole body is a try/except
    returning False, so an encoder exception yields (false, engine).
    The store into self.indices happens only after encoding succeeds; the
    subsequent best-effort cache_embeddings side effect goes through
    CacheManager.set, whose own try/except never lets an exception escape
    (cache.py lines 60-78), so it cannot alter the result or the indices. -/
def create_session_index (engine : RAGEngine) (session_id : String)
    (documents : List (String × String)) : Bool × RAGEngine :=
  let pairs := chunksAll documents
  let chunks := pairs.map Prod.fst
  let chunk_metadata := pairs.map Prod.snd
  if chunks.isEmpty then (false, engine)
  else
    match engine.encode chunks with
    | .error _ => (false, engine)
    | .ok embeddings =>
        (true, { engine with
                 indices := insertAssoc engine.indices session_id
                   ⟨embeddings, chunks, chunk_metadata, documents⟩ })

/-- One retrieval result of rag.py retrieve_relevant_chunks. -/
structure RResult where
  rank : Nat
  chunk : String
  distance : ℚ
  similarity : ℚ
  metadata : ChunkMeta

/-- The result loop of rag.py retrieve_relevant_chunks (lines 141-151):
    enumerate(zip(distances[0], indices[0])) with rank = idx + 1, skipping
    negative indices; an out-of-range list access would raise (caught by
    the surrounding except), modelled by returning none. -/
def buildResults (texts : List String) (metadata : List ChunkMeta) :
    Nat → List (ℚ × Int) → Option (List RResult)
  | _, [] => some []
  | idx, (distance, chunk_idx) :: rest =>
      if chunk_idx < 0 then buildResults texts metadata (idx + 1) rest
      else
        match texts[chunk_idx.toNat]?, metadata[chunk_idx.toNat]? with
        | some t, some m =>
            match buildResults texts metadata (idx + 1) rest with
            | some rs =>
                some ({ rank := idx + 1, chunk := t, distance := distance,
                        similarity := 1 / (1 + distance), metadata := m } :: rs)
            | none => none
        | _, _ => none

/-- Number of indexed chunks for a session (index.ntotal), 0 when absent. -/
def ntotal (engine : RAGEngine) (session_id : String) : Nat :=
  match lookupAssoc engine.indices session_id with
  | none => 0
  | some idx => idx.embeddings.length

/-- rag.py RAGEngine.retrieve_relevant_chunks (lines 107-157). Missing
    index returns []; the query is encoded with the same collaborator; the
    search asks for min(top_k, ntotal) neighbors; every exception path of
    the source's try/except degrades to []. -/
def retrieve_relevant_chunks (engine : RAGEngine) (session_id query : String)
    (top_k : Nat) : List RResult :=
  match lookupAssoc engine.indices session_id with
  | none => []
  | some idx =>
      match engine.encode [query] with
      | .error _ => []
      | .ok qemb =>
          match qemb with
          | [] => []
          | qv :: _ =>
              let pairs := engine.search idx.embeddings qv (min top_k idx.embeddings.length)
              match buildResults idx.texts idx.metadata 0 pairs with
              | none => []
              | some rs => rs

/-- Python sorted(chunks, key=lambda x: x["metadata"]["start"]), a stable
    ascending sort on the original document offset. -/
def sortByStart (chunks : List RResult) : List RResult :=
  chunks.mergeSort (fun a b => decide (a.metadata.start ≤ b.metadata.start))

/-- Raw document texts the engine holds for a session ([] when no index). -/
def docTexts (engine : RAGEngine) (session_id : String) : List String :=
  match lookupAssoc engine.indices session_id with
  | none => []
  | some idx => idx.documents.map Prod.snd

/-- rag.py RAGEngine.augment_context (lines 159-199). Retrieves top 10,
    re-sorts by start, joins, truncates; when retrieval is empty it joins
    self.indices[session_id]["documents"].values() — a KeyError when the
    index is missing, caught by the except which returns "". -/
def RAGEngine.augment_context (engine : RAGEngine) (session_id question : String)
    (max_context_length : Nat) : String :=
  let chunks := retrieve_relevant_chunks engine session_id question 10
  if chunks.isEmpty then
    match lookupAssoc engine.indices session_id with
    | none => ""
    | some idx => truncCtx max_context_length (joinSep (idx.documents.map Prod.snd))
  else
    truncCtx max_context_length (joinSep ((sortByStart chunks).map (fun c => c.chunk)))

/-- One raw record of the extraction pipeline's response; every field is
    optional because the source reads them with dict.get defaults. -/
structure RawAnswer where
  answer : Option String
  score : Option ℚ
  start : Option Nat
  stop : Option Nat

/-- The pipeline may answer with a single record or a list of records. -/
inductive PipeOut where
  | single (r : RawAnswer)
  | multi (rs : List RawAnswer)

/-- The extractive QA model collaborator: question, context → response,
    which may raise (modelled as Except). -/
abbrev Pipe := String → String → Except String PipeOut

/-- Normalised answer record of qa.py QAEngine.answer. -/
structure Candidate where
  answer : String
  score : ℚ
  start : Nat
  stop : Nat
deriving DecidableEq

/-- Field normalisation of qa.py answer (lines 59-64): result.get with
    defaults "", 0.0, 0, 0. -/
def mkCand (r : RawAnswer) : Candidate :=
  ⟨r.answer.getD "", r.score.getD 0, r.start.getD 0, r.stop.getD 0⟩

/-- The except branch of qa.py answer (lines 65-72). -/
def errCand (e : String) : Candidate :=
  ⟨"Error processing question: " ++ e, 0, 0, 0⟩

/-- qa.py QAEngine.answer (lines 30-72). Empty / whitespace-only context
    short-circuits; otherwise one pipeline call on the whole context; a
    list response is reduced to its first element (result[0] on an empty
    list raises IndexError, caught by the same except); any pipeline
    exception produces the zero-score error candidate. -/
def QAEngine.answer (pipe : Pipe) (question context : String) : Candidate :=
  if context = "" ∨ stripS context = "" then
    ⟨"No context provided", 0, 0, 0⟩
  else
    match pipe question context with
    | .error e => errCand e
    | .ok (.single r) => mkCand r
    | .ok (.multi []) => errCand "list index out of range"
    | .ok (.multi (r :: _)) => mkCand r

/-- The contexts on which QAEngine.answer invokes the extraction pipeline
    (call instrumentation for the windowing question): the source makes
    exactly one call, on the full context, unless it short-circuits. -/
def answerCalls (question context : String) : List (String × String) :=
  if context = "" ∨ stripS context = "" then [] else [(question, context)]

/-- Lengths of the contexts passed to the pipeline by QAEngine.answer. -/
def callLengths (question context : String) : List Nat :=
  (answerCalls question context).map (fun p => p.2.length)

/-- The chunk list qa.py QAEngine.augment_context (lines 74-96) includes,
    in the order it includes them: the retrieval results for top_k=3, in
    similarity rank order ([] when no RAG engine or no chunks). -/
def QAEngine.augmentChunks (rag : Option RAGEngine) (session_id question : String) :
    List RResult :=
  match rag with
  | none => []
  | some engine => retrieve_relevant_chunks engine session_id question 3

/-- qa.py QAEngine.augment_context (lines 74-96): join the retrieved
    chunks with blank lines, in retrieval order, then slice to
    max_context_length. Note: no re-sort by start happens here. -/
def QAEngine.augment_context (rag : Option RAGEngine) (session_id question : String)
    (max_context_length : Nat) : String :=
  let chunks := QAEngine.augmentChunks rag session_id question
  if chunks.isEmpty then ""
  else pyTake (joinSep (chunks.map (fun c => c.chunk))) max_context_length

/-- Starts of the chunks included by QAEngine.augment_context, in
    inclusion order. -/
def qaChunkStarts (rag : Option RAGEngine) (session_id question : String) : List Nat :=
  (QAEngine.augmentChunks rag session_id question).map (fun r => r.metadata.start)

/-- Starts of the chunks included by RAGEngine.augment_context when
    retrieval succeeds, in inclusion order (after the re-sort). -/
def ragChunkStarts (engine : RAGEngine) (session_id question : String) : List Nat :=
  (sortByStart (retrieve_relevant_chunks engine session_id question 10)).map
    (fun r => r.metadata.start)

/-- best_answer dict of qa.py answer_from_documents. -/
structure Best where
  answer : String
  score : ℚ
  source : Option String
deriving DecidableEq

/-- Initial best_answer of qa.py answer_from_documents (lines 114-118). -/
def initialBest : Best := ⟨"No answer found", 0, none⟩

/-- One iteration of the fallback loop (qa.py lines 147-157): truncate the
    document, answer, replace on strictly greater score. -/
def stepBest (pipe : Pipe) (question : String) (max_context_length : Nat)
    (best : Best) (doc : String × String) : Best :=
  let context := truncCtx max_context_length doc.2
  let result := QAEngine.answer pipe question context
  if best.score < result.score then ⟨result.answer, result.score, some doc.1⟩ else best

/-- The fallback loop over all documents. -/
def fallbackBest (pipe : Pipe) (question : String)
    (documents : List (String × String)) (max_context_length : Nat) : Best :=
  documents.foldl (stepBest pipe question max_context_length) initialBest

/-- qa.py QAEngine.answer_from_documents (lines 98-159). The Boolean in
    the result instruments whether the exhaustive per-document fallback
    loop ran. The RAG branch requires both a RAG engine and a truthy
    (non-empty) session id, mirroring Python's "if self.rag_engine and
    session_id"; "if augmented_context and augmented_context.strip()" and
    "if result and result.get('answer')" are the corresponding truthiness
    tests. -/
def answer_from_documents (pipe : Pipe) (rag : Option RAGEngine) (question : String)
    (documents : List (String × String)) (session_id : Option String)
    (max_context_length : Nat) : Best × Bool :=
  match rag, session_id with
  | some engine, some sid =>
      if sid = "" then (fallbackBest pipe question documents max_context_length, true)
      else
        let augmented := QAEngine.augment_context (some engine) sid question max_context_length
        if augmented ≠ "" ∧ stripS augmented ≠ "" then
          let result := QAEngine.answer pipe question augmented
          if result.answer ≠ "" then
            (⟨result.answer, result.score, some "RAG-retrieved-chunks"⟩, false)
          else (fallbackBest pipe question documents max_context_length, true)
        else (fallbackBest pipe question documents max_context_length, true)
  | _, _ => (fallbackBest pipe question documents max_context_length, true)

/-- The RAG-path candidate of answer_from_documents: single-pass answer on
    the assembled context. -/
def ragCandidate (pipe : Pipe) (engine : RAGEngine) (sid question : String)
    (max_context_length : Nat) : Candidate :=
  QAEngine.answer pipe question
    (QAEngine.augment_context (some engine) sid question max_context_length)

/-- The per-document candidates the fallback loop evaluates, paired with
    their document ids, in iteration order. -/
def fallbackEntries (pipe : Pipe) (question : String)
    (documents : List (String × String)) (max_context_length : Nat) :
    List (String × Candidate) :=
  documents.map (fun d => (d.1, QAEngine.answer pipe question (truncCtx max_context_length d.2)))

/-- The fallback loop restated on precomputed entries. -/
def selectStep (best : Best) (e : String × Candidate) : Best :=
  if best.score < e.2.score then ⟨e.2.answer, e.2.score, some e.1⟩ else best

/-- Highest score among the entries and the initial 0 sentinel score. -/
def maxScore (entries : List (String × Candidate)) : ℚ :=
  (entries.map (fun e => e.2.score)).foldl max 0

/-- First entry carrying the given score, in iteration order. -/
def firstWithScore (m : ℚ) : List (String × Candidate) → Option (String × Candidate)
  | [] => none
  | e :: rest => if e.2.score = m then some e else firstWithScore m rest

/-- One stored entry of cache.py's in-memory cache:
    {"value": value, "ttl": ttl, "timestamp": datetime.now()}; time is an
    abstract instant measured in seconds. -/
structure CacheEntry (α : Type) where
  value : α
  ttl : Nat
  timestamp : Nat

/-- cache.py CacheManager in its in-memory fallback branch
    (use_redis = False); the Redis branch is an external collaborator. -/
structure CacheManager (α : Type) where
  ttl : Nat
  store : List (String × CacheEntry α)

/-- cache.py _generate_key (lines 43-46). -/
def genKey (pfx : String) (args : List String) : String :=
  pfx ++ ":" ++ String.intercalate ":" args

/-- cache.py CacheManager.set (lines 48-78), in-memory branch, with the
    call instant made explicit. Python's "ttl = ttl or self.ttl" treats
    both None and 0 as absent. Nothing in the branch can raise, so set
    always returns True. -/
def CacheManager.set {α : Type} (cm : CacheManager α) (key : String) (value : α)
    (ttlArg : Option Nat) (now : Nat) : Bool × CacheManager α :=
  let t := match ttlArg with
    | some t0 => if t0 = 0 then cm.ttl else t0
    | none => cm.ttl
  (true, { cm with store := insertAssoc cm.store key ⟨value, t, now⟩ })

/-- cache.py CacheManager.get (lines 80-112), in-memory branch: TTL check
    now > timestamp + ttl evicts and returns None, otherwise the value. -/
def CacheManager.get {α : Type} (cm : CacheManager α) (key : String) (now : Nat) :
    Option α × CacheManager α :=
  match lookupAssoc cm.store key with
  | none => (none, cm)
  | some e =>
      if e.timestamp + e.ttl < now then
        (none, { cm with store := eraseAssoc cm.store key })
      else (some e.value, cm)

/-- cache.py cache_qa_result (lines 141-156): key from the md5 hex digest
    of the question (the hash is an external collaborator, passed in),
    stored with ttl=3600. -/
def cache_qa_result {α : Type} (md5hex : String → String) (cm : CacheManager α)
    (session_id question : String) (result : α) (now : Nat) : Bool × CacheManager α :=
  CacheManager.set cm (genKey "qa_result" [session_id, md5hex question]) result (some 3600) now

/-- cache.py get_qa_result (lines 158-171). -/
def get_qa_result {α : Type} (md5hex : String → String) (cm : CacheManager α)
    (session_id question : String) (now : Nat) : Option α × CacheManager α :=
  CacheManager.get cm (genKey "qa_result" [session_id, md5hex question]) now

/-- Concrete document text: 600 repetitions of one letter, chunked by the
    source's 500/50 loop into windows at offsets 0 and 450. -/
def docA : String := String.mk (List.replicate 600 'x')

/-- Concrete encoder: one-dimensional embeddings separating the 500-length
    chunk from everything else, so the shorter chunk (start 450) is nearer
    to every non-chunk query. -/
def encodeX : Encode :=
  fun l => .ok (l.map (fun s => [if s.length = 500 then (0 : ℚ) else 1]))

/-- Concrete searcher consistent with encodeX on the docA index: row 1
    (the chunk at offset 450, embedded at 1, distance 0 to the query) is
    nearer than row 0 (the chunk at offset 0, embedded at 0, distance 1),
    so similarity rank order is row 1 first; k pairs are returned. -/
def searchX : Search :=
  fun _ _ k => [((0 : ℚ), (1 : Int)), ((1 : ℚ), (0 : Int))].take k

/-- Engine with no indices. -/
def engEmpty : RAGEngine := ⟨encodeX, searchX, []⟩

/-- Engine after a successful build of session "S" over document "A". -/
def engX : RAGEngine := (create_session_index engEmpty "S" [("A", docA)]).2

/-- Concrete raw pipeline record. -/
def rawW : RawAnswer := ⟨some "yes", some (1 : ℚ), some 0, some 3⟩

/-- Concrete pipeline always answering "yes" with score 1/2. -/
def pipeW : Pipe := fun _ _ => .ok (.single rawW)

/-- Concrete pipeline that always raises. -/
def pipeErr : Pipe := fun _ _ => .error "boom"

/-- Score table realising the spec's best-of shape — A lowest, B highest,
    C in between (the spec's 0.3 / 0.9 / 0.5, rescaled to 3 / 9 / 5). -/
def scoreFor (c : String) : ℚ :=
  if c = "docB0" then 9 else if c = "docC0" then 5 else 3

/-- Concrete pipeline whose score depends on the context it was shown. -/
def pipeSpec : Pipe :=
  fun _ c => .ok (.single ⟨some ("ans:" ++ c), some (scoreFor c), some 0, some 0⟩)

/-- Document mapping for the best-of example. -/
def docsW : List (String × String) := [("A", "docA0"), ("B", "docB0"), ("C", "docC0")]

/-- A context one character longer than the 4000-character model window. -/
def bigCtx : String := String.mk (List.replicate 4001 'a')

/-- A two-character text, below the minimum chunk length. -/
def txtAB : String := "ab"

/-- Appending to a non-empty string never yields the empty string. -/
theorem append_ne_empty_left (a b : String) (ha : a ≠ "") : a ++ b ≠ "" := by
  obtain ⟨la⟩ := a
  obtain ⟨lb⟩ := b
  intro h
  apply ha
  have hd : la ++ lb = ([] : List Char) := congrArg String.data h
  have hla : la = [] := (List.append_eq_nil.mp hd).1
  rw [hla]

/-- Dict lookup immediately after dict assignment finds the stored value. -/
theorem lookup_insertAssoc {α : Type} (l : List (String × α)) (k : String) (v : α) :
    lookupAssoc (insertAssoc l k v) k = some v := by
  induction l with
  | nil => simp [insertAssoc, lookupAssoc]
  | cons hd tl ih =>
      obtain ⟨k', v'⟩ := hd
      by_cases h : k' = k
      · simp [insertAssoc, h, lookupAssoc]
      · simp [insertAssoc, h, lookupAssoc, ih]

/-- A left fold of max never drops below its starting value. -/
theorem foldlMax_init_le (l : List ℚ) (i : ℚ) : i ≤ l.foldl max i := by
  induction l generalizing i with
  | nil => exact le_refl i
  | cons a t ih =>
      simp only [List.foldl_cons]
      exact le_trans (le_max_left i a) (ih (max i a))

/-- One-step unfolding of firstWithScore. -/
theorem firstWithScore_cons (m : ℚ) (e : String × Candidate)
    (t : List (String × Candidate)) :
    firstWithScore m (e :: t)
      = if e.2.score = m then some e else firstWithScore m t := rfl

/-- firstWithScore only returns entries carrying the requested score. -/
theorem firstWithScore_score (m : ℚ) (l : List (String × Candidate))
    (p : String × Candidate) (h : firstWithScore m l = some p) : p.2.score = m := by
  induction l with
  | nil => simp [firstWithScore] at h
  | cons e t ih =>
      by_cases he : e.2.score = m
      · rw [firstWithScore_cons, if_pos he] at h
        have hpe : e = p := Option.some.inj h
        rw [← hpe]
        exact he
      · rw [firstWithScore_cons, if_neg he] at h
        exact ih h

/-- The result loop emits at most one record per (distance, index) pair. -/
theorem buildResults_length (texts : List String) (metadata : List ChunkMeta) :
    ∀ (idx : Nat) (pairs : List (ℚ × Int)) (rs : List RResult),
      buildResults texts metadata idx pairs = some rs → rs.length ≤ pairs.length := by
  intro idx pairs
  induction pairs generalizing idx with
  | nil =>
      intro rs h
      simp only [buildResults, Option.some.injEq] at h
      simp [← h]
  | cons hd tl ih =>
      intro rs h
      obtain ⟨distance, chunk_idx⟩ := hd
      by_cases hneg : chunk_idx < 0
      · rw [buildResults, if_pos hneg] at h
        exact le_trans (ih (idx + 1) rs h) (Nat.le_succ _)
      · rw [buildResults, if_neg hneg] at h
        cases ht : texts[chunk_idx.toNat]? with
        | none => rw [ht] at h; simp at h
        | some t =>
            cases hm : metadata[chunk_idx.toNat]? with
            | none => rw [ht, hm] at h; simp at h
            | some m =>
                rw [ht, hm] at h
                cases hb : buildResults texts metadata (idx + 1) tl with
                | none => rw [hb] at h; simp at h
                | some rs0 =>
                    rw [hb] at h
                    simp only [Option.some.injEq] at h
                    rw [← h]
                    simpa using ih (idx + 1) rs0 hb

/-- The fallback loop over documents equals a fold of selectStep over the
    precomputed per-document entries. -/
theorem fallbackBest_foldl (pipe : Pipe) (question : String)
    (documents : List (String × String)) (max_context_length : Nat) :
    fallbackBest pipe question documents max_context_length
      = (fallbackEntries pipe question documents max_context_length).foldl
          selectStep initialBest := by
  unfold fallbackBest fallbackEntries
  rw [List.foldl_map]
  rfl

/-- Characterisation of the strict-greater fold: the final score is the
    running maximum, the accumulator survives untouched when nothing beats
    it, and otherwise the first entry attaining the maximum wins. -/
theorem selectBest_spec (l : List (String × Candidate)) : ∀ b : Best,
    (l.foldl selectStep b).score = (l.map (fun e => e.2.score)).foldl max b.score
    ∧ ((l.map (fun e => e.2.score)).foldl max b.score = b.score → l.foldl selectStep b = b)
    ∧ (b.score < (l.map (fun e => e.2.score)).foldl max b.score →
        ∀ p, firstWithScore ((l.map (fun e => e.2.score)).foldl max b.score) l = some p →
          l.foldl selectStep b = ⟨p.2.answer, p.2.score, some p.1⟩) := by
  induction l with
  | nil =>
      intro b
      exact ⟨rfl, fun _ => rfl, fun h p _ => absurd h (lt_irrefl _)⟩
  | cons e t ih =>
      intro b
      by_cases h : b.score < e.2.score
      · have hstep : selectStep b e = ⟨e.2.answer, e.2.score, some e.1⟩ := by
          simp [selectStep, h]
        have hfold : (e :: t).foldl selectStep b
            = t.foldl selectStep ⟨e.2.answer, e.2.score, some e.1⟩ := by
          simp only [List.foldl_cons, hstep]
        have hscores : ((e :: t).map (fun x => x.2.score)).foldl max b.score
            = (t.map (fun x => x.2.score)).foldl max e.2.score := by
          simp only [List.map_cons, List.foldl_cons, max_eq_right (le_of_lt h)]
        obtain ⟨ih1, ih2, ih3⟩ := ih ⟨e.2.answer, e.2.score, some e.1⟩
        have hMge : e.2.score ≤ (t.map (fun x => x.2.score)).foldl max e.2.score :=
          foldlMax_init_le _ _
        refine ⟨?_, ?_, ?_⟩
        · rw [hfold, hscores]
          exact ih1
        · intro hM
          rw [hscores] at hM
          exact absurd hM (ne_of_gt (lt_of_lt_of_le h hMge))
        · intro _ p hp
          rw [hscores] at hp
          rw [hfold]
          by_cases he : e.2.score = (t.map (fun x => x.2.score)).foldl max e.2.score
          · rw [firstWithScore_cons, if_pos he] at hp
            have hpe : e = p := Option.some.inj hp
            have hres := ih2 he.symm
            rw [hres, ← hpe]
          · rw [firstWithScore_cons, if_neg he] at hp
            exact ih3 (lt_of_le_of_ne hMge he) p hp
      · have hle : e.2.score ≤ b.score := not_lt.mp h
        have hstep : selectStep b e = b := by
          simp [selectStep, h]
        have hfold : (e :: t).foldl selectStep b = t.foldl selectStep b := by
          simp only [List.foldl_cons, hstep]
        have hscores : ((e :: t).map (fun x => x.2.score)).foldl max b.score
            = (t.map (fun x => x.2.score)).foldl max b.score := by
          simp only [List.map_cons, List.foldl_cons, max_eq_left hle]
        obtain ⟨ih1, ih2, ih3⟩ := ih b
        refine ⟨?_, ?_, ?_⟩
        · rw [hfold, hscores]
          exact ih1
        · intro hM
          rw [hscores] at hM
          rw [hfold]
          exact ih2 hM
        · intro hlt p hp
          rw [hscores] at hlt hp
          have he : ¬ e.2.score = (t.map (fun x => x.2.score)).foldl max b.score :=
            ne_of_lt (lt_of_le_of_lt hle hlt)
          rw [firstWithScore_cons, if_neg he] at hp
          rw [hfold]
          exact ih3 hlt p hp

/-- Claim C9: caching a QA result and immediately retrieving it for the
    same (corpus id, question) pair returns exactly the stored value. The
    store and the TTL check are modelled from cache.py's in-memory branch
    (use_redis = False); retrieval at the caching instant cannot observe
    the 3600-second TTL as expired because the expiry test is strict. -/
theorem cache_roundtrip {α : Type} (md5hex : String → String) (cm : CacheManager α)
    (session_id question : String) (result : α) (now : Nat) :
    get_qa_result md5hex (cache_qa_result md5hex cm session_id question result now).2
        session_id question now
      = (some result, (cache_qa_result md5hex cm session_id question result now).2) := by
  unfold get_qa_result cache_qa_result CacheManager.get CacheManager.set
  simp only []
  rw [show (if (3600 : Nat) = 0 then cm.ttl else 3600) = 3600 from if_neg (by decide)]
  rw [lookup_insertAssoc]
  simp only []
  rw [if_neg (by omega : ¬ now + 3600 < now)]

/-- Claim C10: QAEngine.answer is a total function (the embedding returns
    a Candidate for every input, with the source's catch-all except); when
    the extraction pipeline raises, the returned candidate has score
    exactly 0 and its answer is the non-empty error string
    "Error processing question: " followed by the exception text. -/
theorem answer_error_total (pipe : Pipe) (question context : String) (e : String)
    (hctx : stripS context ≠ "") (hp : pipe question context = Except.error e) :
    QAEngine.answer pipe question context = errCand e
    ∧ (QAEngine.answer pipe question context).score = 0
    ∧ (QAEngine.answer pipe question context).answer
        = "Error processing question: " ++ e
    ∧ (QAEngine.answer pipe question context).answer ≠ "" := by
  have hne : ¬ (context = "" ∨ stripS context = "") := by
    rintro (h | h)
    · exact hctx (by rw [h]; rfl)
    · exact hctx h
  have h1 : QAEngine.answer pipe question context = errCand e := by
    unfold QAEngine.answer
    rw [if_neg hne, hp]
  refine ⟨h1, by rw [h1]; rfl, by rw [h1]; rfl, ?_⟩
  rw [h1]
  exact append_ne_empty_left _ e (by decide)

/-- Claim C10 witness: the pipeline raising "boom" on a concrete question
    and context yields the zero-score error candidate. -/
theorem answer_error_total_witness :
    QAEngine.answer pipeErr "q" "hello" = errCand "boom"
    ∧ (QAEngine.answer pipeErr "q" "hello").score = 0
    ∧ (QAEngine.answer pipeErr "q" "hello").answer
        = "Error processing question: " ++ "boom"
    ∧ (QAEngine.answer pipeErr "q" "hello").answer ≠ "" :=
  answer_error_total pipeErr "q" "hello" "boom" (by decide) rfl

/-- Stripping a run of one non-whitespace character changes nothing. -/
theorem stripChars_replicate (n : Nat) (c : Char) (hc : c.isWhitespace = false) :
    stripChars (List.replicate n c) = List.replicate n c := by
  have hdw : ∀ m, List.dropWhile Char.isWhitespace (List.replicate m c)
      = List.replicate m c := by
    intro m
    cases m with
    | zero => rfl
    | succ m0 => simp [List.replicate_succ, List.dropWhile_cons, hc]
  unfold stripChars
  rw [hdw, List.reverse_replicate, hdw, List.reverse_replicate]

/-- Claim C3 counterexample: on a context of 4001 characters — longer than
    the claimed 4000-character model window — QAEngine.answer invokes the
    extraction pipeline exactly once, on the whole 4001-character context,
    instead of running it on overlapping 4000/200 windows. -/
theorem answer_no_windowing_counterexample :
    answerCalls "q" bigCtx = [("q", bigCtx)] ∧ callLengths "q" bigCtx = [4001] := by
  have hne1 : bigCtx ≠ "" := by
    intro h
    have hd : List.replicate 4001 'a' = ([] : List Char) := congrArg String.data h
    have h0 : (4001 : Nat) = 0 := (List.replicate_eq_nil_iff 'a').mp hd
    exact absurd h0 (by decide)
  have hstrip : stripS bigCtx = bigCtx := by
    show String.mk (stripChars (List.replicate 4001 'a')) = _
    rw [stripChars_replicate 4001 'a' (by decide)]
    rfl
  have hne : ¬ (bigCtx = "" ∨ stripS bigCtx = "") := by
    rintro (h | h)
    · exact hne1 h
    · rw [hstrip] at h
      exact hne1 h
  have hlen : bigCtx.length = 4001 := by
    show (List.replicate 4001 'a').length = 4001
    exact List.length_replicate 4001 'a'
  constructor
  · unfold answerCalls
    rw [if_neg hne]
  · unfold callLengths answerCalls
    rw [if_neg hne]
    simp [hlen]

/-- Claim C3 amended: for any context that is not empty or whitespace-only,
    QAEngine.answer makes a single extraction call on the entire context,
    regardless of its length, and returns the pipeline's answer, score and
    offsets unchanged (no window-offset translation). -/
theorem answer_single_pass (pipe : Pipe) (question context : String) (r : RawAnswer)
    (hctx : stripS context ≠ "") :
    answerCalls question context = [(question, context)]
    ∧ (pipe question context = Except.ok (PipeOut.single r) →
        QAEngine.answer pipe question context = mkCand r) := by
  have hne : ¬ (context = "" ∨ stripS context = "") := by
    rintro (h | h)
    · exact hctx (by rw [h]; rfl)
    · exact hctx h
  constructor
  · unfold answerCalls
    rw [if_neg hne]
  · intro hp
    unfold QAEngine.answer
    rw [if_neg hne, hp]

/-- Claim C3 amended witness: a concrete pipeline record is passed through
    unchanged on the concrete context "hello". -/
theorem answer_single_pass_witness :
    answerCalls "q" "hello" = [("q", "hello")]
    ∧ QAEngine.answer pipeW "q" "hello" = mkCand rawW := by
  have h := answer_single_pass pipeW "q" "hello" rawW (by decide)
  exact ⟨h.1, h.2 rfl⟩

/-- Claim C5 counterexample: on the two-character text "ab" the 500/50
    chunking loop emits no chunks at all (the single window's trimmed
    length 2 is not above the minimum 50), so character 0 of the text is
    outside the union of all emitted chunk ranges. -/
theorem chunk_coverage_counterexample :
    chunkDoc 500 50 50 "d" txtAB = []
    ∧ 0 < txtAB.length
    ∧ ¬ covers (emittedRanges 500 50 50 "d" txtAB) 0 := by
  refine ⟨by decide, by decide, ?_⟩
  intro h
  obtain ⟨r, hr, -⟩ := h
  have he : emittedRanges 500 50 50 "d" txtAB = [] := by decide
  rw [he] at hr
  exact absurd hr (List.not_mem_nil r)

/-- Claim C5 amended: for a valid configuration (overlap below chunk size)
    every character of the text lies in some window the chunking loop
    visits, and every emitted chunk's range is one of those windows; only
    the minimum-length filter can leave characters of dropped windows
    uncovered. -/
theorem window_coverage (chunk_size chunk_overlap min_chunk_length : Nat)
    (doc_id : String) (text : String) (c : Nat)
    (hov : chunk_overlap < chunk_size) (hc : c < text.length) :
    covers (windowRanges chunk_size chunk_overlap text.length) c
    ∧ ∀ p ∈ chunkDoc chunk_size chunk_overlap min_chunk_length doc_id text,
        (p.2.start, p.2.stop) ∈ windowRanges chunk_size chunk_overlap text.length := by
  constructor
  · have hpos : 0 < chunk_size - chunk_overlap := Nat.sub_pos_of_lt hov
    set step := chunk_size - chunk_overlap with hstepdef
    set len := text.length with hlendef
    set k := c / step with hkdef
    have h1 : k * step ≤ c := Nat.div_mul_le_self c step
    have h2 : c < (k + 1) * step := by
      have := (Nat.div_lt_iff_lt_mul hpos).mp (Nat.lt_succ_self k)
      exact this
    have hk : k < (len + step - 1) / step := by
      have hgoal : (k + 1) * step ≤ len + step - 1 := by
        rw [Nat.succ_mul]
        have hX : k * step ≤ c := h1
        omega
      exact (Nat.le_div_iff_mul_le hpos).mpr hgoal
    refine ⟨(k * step, min (k * step + chunk_size) len), ?_, ?_, ?_⟩
    · unfold windowRanges pyRange
      rw [← hstepdef]
      exact List.mem_map.mpr
        ⟨k * step, List.mem_map.mpr ⟨k, List.mem_range.mpr hk, rfl⟩, rfl⟩
    · exact h1
    · refine lt_min_iff.mpr ⟨?_, hc⟩
      have hstep_le : step ≤ chunk_size := Nat.sub_le _ _
      have : c < k * step + step := by rw [← Nat.succ_mul]; exact h2
      omega
  · intro p hp
    unfold chunkDoc at hp
    obtain ⟨i, hi, hfi⟩ := List.mem_filterMap.mp hp
    simp only [] at hfi
    split at hfi
    · have hps := (congrArg Prod.snd (Option.some.inj hfi)).symm
      rw [hps]
      unfold windowRanges
      exact List.mem_map.mpr ⟨i, hi, rfl⟩
    · exact absurd hfi (by simp)

/-- Claim C5 amended witness: with chunk size 3, overlap 1 and the
    five-character text "abcde", character 4 is covered by a window. -/
theorem window_coverage_witness : covers (windowRanges 3 1 5) 4 :=
  (window_coverage 3 1 0 "d" "abcde" 4 (by decide) (by decide)).1

/-- Claim C1: whenever the RAG engine and a truthy session id are present,
    the assembled context passes the truthiness gates and the single-pass
    answer on it is non-empty, answer_from_documents returns that candidate
    immediately, tagged with the "RAG-retrieved-chunks" provenance
    sentinel, and the per-document fallback loop never runs (instrumented
    by the Boolean in the result). -/
theorem rag_short_circuit (pipe : Pipe) (engine : RAGEngine) (sid question : String)
    (documents : List (String × String)) (max_context_length : Nat)
    (hsid : ¬ sid = "")
    (haug : QAEngine.augment_context (some engine) sid question max_context_length ≠ "")
    (hstrip : stripS (QAEngine.augment_context (some engine) sid question max_context_length) ≠ "")
    (hans : (ragCandidate pipe engine sid question max_context_length).answer ≠ "") :
    answer_from_documents pipe (some engine) question documents (some sid) max_context_length
      = (⟨(ragCandidate pipe engine sid question max_context_length).answer,
          (ragCandidate pipe engine sid question max_context_length).score,
          some "RAG-retrieved-chunks"⟩, false) := by
  unfold ragCandidate at hans
  show (if sid = ""
      then (fallbackBest pipe question documents max_context_length, true)
      else
        let augmented := QAEngine.augment_context (some engine) sid question max_context_length
        if augmented ≠ "" ∧ stripS augmented ≠ "" then
          let result := QAEngine.answer pipe question augmented
          if result.answer ≠ "" then
            (⟨result.answer, result.score, some "RAG-retrieved-chunks"⟩, false)
          else (fallbackBest pipe question documents max_context_length, true)
        else (fallbackBest pipe question documents max_context_length, true)) = _
  rw [if_neg hsid]
  simp only []
  rw [if_pos (And.intro haug hstrip), if_pos hans]
  rfl

set_option maxRecDepth 8000 in
/-- Claim C1 witness: on the concrete one-document corpus indexed as
    session "S", the RAG path answers "yes" with score 1 and the
    fallback is not invoked. -/
theorem rag_short_circuit_witness :
    answer_from_documents pipeW (some engX) "q" [("A", docA)] (some "S") 4000
      = (⟨"yes", (1 : ℚ), some "RAG-retrieved-chunks"⟩, false) := by
  have h := rag_short_circuit pipeW engX "S" "q" [("A", docA)] 4000
    (by decide) (by decide) (by decide) (by decide)
  rw [h]
  decide

set_option maxRecDepth 8000 in
/-- Claim C2 counterexample: on the concrete indexed corpus, the context
    QAEngine.augment_context assembles for question answering (the one
    answer_from_documents uses) includes its chunks in similarity rank
    order with original offsets [450, 0], which is not ascending: the
    re-sort by start the claim describes does not happen on this path. -/
theorem qa_context_rank_order_counterexample :
    qaChunkStarts (some engX) "S" "q" = [450, 0]
    ∧ ¬ (qaChunkStarts (some engX) "S" "q").Sorted (· ≤ ·) := by
  have h : qaChunkStarts (some engX) "S" "q" = [450, 0] := by decide
  refine ⟨h, ?_⟩
  rw [h]
  intro hs
  have h450 : (450 : Nat) ≤ 0 := (List.sorted_cons.mp hs).1 0 (by simp)
  exact absurd h450 (by decide)

/-- Claim C2 amended: RAGEngine.augment_context does list its included
    chunks in ascending order of their original document offset (the
    stable sort on metadata start); QAEngine.augment_context — the
    assembler answer_from_documents actually invokes — keeps similarity
    rank order instead. This theorem proves the former, the
    counterexample exhibits the latter. -/
theorem rag_assembler_sorted_by_start (engine : RAGEngine) (session_id question : String) :
    (ragChunkStarts engine session_id question).Sorted (· ≤ ·) := by
  have htrans : ∀ a b c : RResult,
      decide (a.metadata.start ≤ b.metadata.start) = true →
      decide (b.metadata.start ≤ c.metadata.start) = true →
      decide (a.metadata.start ≤ c.metadata.start) = true := by
    intro a b c hab hbc
    simp only [decide_eq_true_eq] at *
    exact le_trans hab hbc
  have htotal : ∀ a b : RResult,
      (decide (a.metadata.start ≤ b.metadata.start)
        || decide (b.metadata.start ≤ a.metadata.start)) = true := by
    intro a b
    simp only [Bool.or_eq_true, decide_eq_true_eq]
    exact Nat.le_total _ _
  unfold ragChunkStarts sortByStart
  rw [List.Sorted, List.pairwise_map]
  exact (List.sorted_mergeSort htrans htotal
    (retrieve_relevant_chunks engine session_id question 10)).imp
    (fun h => of_decide_eq_true h)

/-- Claim C4: whenever chunk retrieval yields no results, the assembled
    context is exactly the blank-line concatenation of the raw document
    texts the engine holds for that corpus, truncated to the maximum
    context length; when no index exists the engine holds no documents and
    the internal KeyError degrades the result to the empty string, which
    coincides with the truncated concatenation of no documents. The
    embedding is a total function: every exception path of the source
    returns a string, never an error. -/
theorem augment_context_fallback (engine : RAGEngine) (session_id question : String)
    (max_context_length : Nat)
    (h : retrieve_relevant_chunks engine session_id question 10 = []) :
    RAGEngine.augment_context engine session_id question max_context_length
      = truncCtx max_context_length (joinSep (docTexts engine session_id)) := by
  unfold RAGEngine.augment_context docTexts
  rw [h]
  simp only [List.isEmpty_nil, if_true]
  cases hl : lookupAssoc engine.indices session_id with
  | none =>
      have h0 : joinSep ([] : List String) = "" := rfl
      rw [h0]
      unfold truncCtx
      rw [if_neg (show ¬ max_context_length < ("" : String).length from Nat.not_lt_zero _)]
  | some idx => rfl

/-- Claim C4 witness: on an engine with no indices at all, retrieval is
    empty and assembly returns the truncated concatenation of the (zero)
    stored documents. -/
theorem augment_context_fallback_witness :
    RAGEngine.augment_context engEmpty "s" "q" 4000
      = truncCtx 4000 (joinSep (docTexts engEmpty "s")) :=
  augment_context_fallback engEmpty "s" "q" 4000 rfl

/-- Claim C6: create_session_index is total (the source's try/except
    returns a flag, never raises); when no chunk survives the
    minimum-length filter it returns false; and whenever it returns false
    the engine — in particular any pre-existing index stored for the
    corpus id — is left completely unchanged, because the store into the
    indices dict happens only on the success path. -/
theorem create_session_index_safe (engine : RAGEngine) (session_id : String)
    (documents : List (String × String)) :
    (chunksAll documents = [] → (create_session_index engine session_id documents).1 = false)
    ∧ ((create_session_index engine session_id documents).1 = false →
        (create_session_index engine session_id documents).2 = engine) := by
  by_cases hch : ((chunksAll documents).map Prod.fst).isEmpty
  · have he : create_session_index engine session_id documents = (false, engine) := by
      unfold create_session_index
      simp only [hch, if_true]
    rw [he]
    exact ⟨fun _ => rfl, fun _ => rfl⟩
  · cases henc : engine.encode ((chunksAll documents).map Prod.fst) with
    | error e =>
        have he : create_session_index engine session_id documents = (false, engine) := by
          unfold create_session_index
          simp only [hch, if_false, Bool.false_eq_true, henc]
        rw [he]
        exact ⟨fun _ => rfl, fun _ => rfl⟩
    | ok embeddings =>
        have he : create_session_index engine session_id documents
            = (true, { engine with
                indices := insertAssoc engine.indices session_id
                  ⟨embeddings, (chunksAll documents).map Prod.fst,
                   (chunksAll documents).map Prod.snd, documents⟩ }) := by
          unfold create_session_index
          simp only [hch, if_false, Bool.false_eq_true, henc]
        rw [he]
        constructor
        · intro h
          exfalso
          apply hch
          rw [h]
          rfl
        · intro h
          exact absurd h (by simp)

/-- Claim C6 witness: building over an empty document mapping yields no
    chunks, fails with false, and leaves the engine unchanged. -/
theorem create_session_index_safe_witness :
    (create_session_index engEmpty "S" []).1 = false
    ∧ (create_session_index engEmpty "S" []).2 = engEmpty := by
  have h := create_session_index_safe engEmpty "S" []
  exact ⟨h.1 rfl, h.2 (h.1 rfl)⟩

/-- Claim C7: retrieve_relevant_chunks is total (every exception path of
    the source degrades to []); a missing index yields the empty list, not
    an error; and — the search collaborator honouring the FAISS contract
    of returning at most as many pairs as requested — the number of
    results never exceeds min(top_k, number of indexed chunks), because
    the search is invoked with top_k clamped to ntotal. -/
theorem retrieve_safe (engine : RAGEngine) (session_id query : String) (top_k : Nat)
    (hsearch : ∀ (emb : List Vec) (q : Vec) (k : Nat),
        (engine.search emb q k).length ≤ k) :
    (lookupAssoc engine.indices session_id = none →
        retrieve_relevant_chunks engine session_id query top_k = [])
    ∧ (retrieve_relevant_chunks engine session_id query top_k).length
        ≤ min top_k (ntotal engine session_id) := by
  cases hl : lookupAssoc engine.indices session_id with
  | none =>
      have he : retrieve_relevant_chunks engine session_id query top_k = [] := by
        unfold retrieve_relevant_chunks
        rw [hl]
      exact ⟨fun _ => he, by rw [he]; simp⟩
  | some idx =>
      constructor
      · intro h
        exact absurd h (by simp)
      · unfold retrieve_relevant_chunks ntotal
        rw [hl]
        simp only []
        cases henc : engine.encode [query] with
        | error e => simp
        | ok qemb =>
            cases qemb with
            | nil => simp
            | cons qv rest =>
                simp only []
                cases hb : buildResults idx.texts idx.metadata 0
                    (engine.search idx.embeddings qv (min top_k idx.embeddings.length)) with
                | none => simp
                | some rs =>
                    simp only []
                    calc rs.length
                        ≤ (engine.search idx.embeddings qv
                            (min top_k idx.embeddings.length)).length :=
                          buildResults_length idx.texts idx.metadata 0 _ rs hb
                      _ ≤ min top_k idx.embeddings.length := hsearch _ _ _

/-- Claim C7 witness: retrieval against a session with no index returns
    the empty list and respects the bound; the concrete searcher returns
    at most the requested number of pairs. -/
theorem retrieve_safe_witness :
    retrieve_relevant_chunks engEmpty "nosuch" "q" 3 = []
    ∧ (retrieve_relevant_chunks engEmpty "nosuch" "q" 3).length
        ≤ min 3 (ntotal engEmpty "nosuch") := by
  have h := retrieve_safe engEmpty "nosuch" "q" 3
    (by
      intro emb q k
      show ([((0 : ℚ), (1 : Int)), ((1 : ℚ), (0 : Int))].take k).length ≤ k
      rw [List.length_take]
      exact min_le_left _ _)
  exact ⟨h.1 rfl, h.2⟩

/-- Claim C8 counterexample: on the non-empty document mapping
    [("A", "")] every per-document candidate scores 0, so the strict
    greater-than comparison never replaces the initial sentinel and the
    returned candidate is "No answer found" with source none — not tagged
    with any winning document id. -/
theorem best_of_counterexample :
    answer_from_documents pipeW none "q" [("A", "")] none 4000 = (initialBest, true)
    ∧ (answer_from_documents pipeW none "q" [("A", "")] none 4000).1.source = none := by
  constructor
  · decide
  · decide

/-- Claim C8 amended: in the exhaustive fallback of answer_from_documents,
    if some per-document candidate scores strictly above the sentinel's 0,
    the returned candidate carries the maximal score over all documents
    and is the first document in iteration order attaining that maximum
    (strict greater-than comparison: a later equal-confidence candidate
    never replaces an earlier one), tagged with that document's id; with
    no strictly positive score the zero-confidence sentinel with source
    none is returned instead. -/
theorem fallback_best_of (pipe : Pipe) (question : String)
    (documents : List (String × String)) (max_context_length : Nat)
    (p : String × Candidate)
    (hpos : 0 < maxScore (fallbackEntries pipe question documents max_context_length))
    (hfw : firstWithScore
        (maxScore (fallbackEntries pipe question documents max_context_length))
        (fallbackEntries pipe question documents max_context_length) = some p) :
    (answer_from_documents pipe none question documents none max_context_length).1
      = ⟨p.2.answer, p.2.score, some p.1⟩
    ∧ p.2.score = maxScore (fallbackEntries pipe question documents max_context_length) := by
  have hsel := selectBest_spec
    (fallbackEntries pipe question documents max_context_length) initialBest
  have hb : (answer_from_documents pipe none question documents none max_context_length).1
      = fallbackBest pipe question documents max_context_length := rfl
  refine ⟨?_, firstWithScore_score _ _ _ hfw⟩
  rw [hb, fallbackBest_foldl]
  exact hsel.2.2 hpos p hfw

/-- Claim C8 amended witness: the spec's best-of example, with scores
    A lowest, B highest, C in between: the fallback returns source B with
    the maximal score. -/
theorem fallback_best_of_witness :
    (answer_from_documents pipeSpec none "q" docsW none 4000).1
      = ⟨"ans:docB0", (9 : ℚ), some "B"⟩ := by
  have h := fallback_best_of pipeSpec "q" docsW 4000
      ("B", ⟨"ans:docB0", (9 : ℚ), 0, 0⟩) (by decide) (by decide)
  exact h.1

end DocQA
